import Mathlib

/-!
Verification of the ipv4-calc repository core
(`packages/core/src/ipUtils.ts` and the `SubnetCalculator` class).

The TypeScript source computes over JavaScript numbers.  All integer
values that occur in the program are exact integers well inside the
double-precision range, so they are modelled by `Int`/`Nat`; the 32-bit
coercions performed by the JavaScript bitwise operators (`<<`, `>>>`,
`&`, `|`, which convert their operands with ToInt32/ToUint32) are
modelled explicitly by `toUInt32` / `toInt32` below.  Strings are
modelled by Lean `String` (in this toolchain a packed `List Char`),
with `String.prototype.split('.')`, `Array.prototype.join('.')`,
`parseInt(_, 10)` and `Number.prototype.toString` given as explicit
executable functions on character lists.
-/

namespace Ipv4Calc

/-! ## JavaScript 32-bit integer semantics -/

/-- ECMAScript ToUint32: the operand taken modulo 2^32 (operands here are
always mathematical integers, which ToUint32 truncates and wraps). -/
def toUInt32 (i : Int) : Nat := (i % 4294967296).toNat

/-- ECMAScript ToInt32: the operand wrapped into [-2^31, 2^31). -/
def toInt32 (i : Int) : Int := (i + 2147483648) % 4294967296 - 2147483648

/-- JavaScript `a << k`: ToInt32 the operand, shift count taken mod 32,
result reinterpreted as a signed 32-bit integer.  (The shift count
`mod 32` is what makes `0xffffffff << 32` a no-op in the source.) -/
def jsShl (a k : Int) : Int := toInt32 ((toUInt32 a) <<< ((toUInt32 k) % 32))

/-- JavaScript `a >>> k`: unsigned 32-bit right shift, shift count mod 32;
the result is a non-negative integer below 2^32. -/
def jsUShr (a k : Int) : Int := ((toUInt32 a) >>> ((toUInt32 k) % 32) : Nat)

/-- JavaScript `a & b` on 32-bit patterns. -/
def jsAnd (a b : Int) : Int := toInt32 ((toUInt32 a) &&& (toUInt32 b))

/-- JavaScript `a | b` on 32-bit patterns. -/
def jsOr (a b : Int) : Int := toInt32 ((toUInt32 a) ||| (toUInt32 b))

/-! ## Strings: split, join, parseInt, Number.toString -/

/-- `String.prototype.split('.')` on the underlying character list:
every `'.'` separates groups, empty groups included. -/
def splitDot : List Char → List (List Char)
  | [] => [[]]
  | c :: cs =>
    if c = '.' then [] :: splitDot cs
    else
      match splitDot cs with
      | g :: gs => (c :: g) :: gs
      | [] => [[c]]

/-- `Array.prototype.join('.')` on the underlying character lists. -/
def joinDot : List (List Char) → List Char
  | [] => []
  | [g] => g
  | g :: gs => g ++ '.' :: joinDot gs

/-- Decimal digit test, `[0-9]` of the source's regular expression
(`Char.isDigit`, written on code points for easier arithmetic). -/
def isDigitC (c : Char) : Bool := 48 ≤ c.toNat && c.toNat ≤ 57

/-- `parseInt(g, 10)` on an all-digit group (the only way the source
applies it: every group it parses was validated by the address regular
expression or produced by `join` of decimal renderings). -/
def parseDecDigits (l : List Char) : Nat :=
  l.foldl (fun a c => a * 10 + (c.toNat - 48)) 0

/-- `Number.prototype.toString()` (base 10) for a non-negative integer,
as a character list.  Structural on a fuel argument (one digit is
emitted per step, so `n + 1` steps always suffice). -/
def renderNatAux : Nat → Nat → List Char
  | 0, _ => []
  | fuel + 1, n =>
    if n < 10 then [Nat.digitChar n]
    else renderNatAux fuel (n / 10) ++ [Nat.digitChar (n % 10)]

/-- `Number.prototype.toString()` (base 10) for a non-negative integer. -/
def renderNat (n : Nat) : List Char := renderNatAux (n + 1) n

/-- `Number.prototype.toString()` (base 10) for an integer: negative
values are rendered with a leading minus sign (`(-1).toString() = "-1"`,
which the host-range computation of the source can produce). -/
def renderInt (i : Int) : List Char :=
  if i < 0 then '-' :: renderNat i.natAbs else renderNat i.toNat

/-- `Number.prototype.toString(2)` (binary) for a positive integer,
fuel-structural as above. -/
def renderBinAux : Nat → Nat → List Char
  | 0, _ => []
  | fuel + 1, n =>
    if n < 2 then [Nat.digitChar n]
    else renderBinAux fuel (n / 2) ++ [Nat.digitChar (n % 2)]

/-- `Number.prototype.toString(2)`: binary rendering, `"0"` for zero. -/
def renderBin (n : Nat) : List Char := renderBinAux (n + 1) n

/-- `String.prototype.padStart(8, '0')`. -/
def padStart8 (l : List Char) : List Char :=
  List.replicate (8 - l.length) '0' ++ l

/-! ## The address regular expression and octet lists -/

/-- One octet group of the source's address regular expression
`25[0-5]|2[0-4][0-9]|[01]?[0-9][0-9]?`, as a decision procedure on the
group's characters (the three alternatives, in order; the last one
matches one digit, two digits, or `[01]` followed by two digits). -/
def validOctet (l : List Char) : Bool :=
  match l with
  | [a] => isDigitC a                    -- [0-9] (third alternative, short)
  | [a, b] => isDigitC a && isDigitC b   -- [01][0-9] or [0-9][0-9]: two digits
  | [a, b, c] =>
    (a == '2' && b == '5' && 48 ≤ c.toNat && c.toNat ≤ 53) ||  -- 25[0-5]
    (a == '2' && 48 ≤ b.toNat && b.toNat ≤ 52 && isDigitC c) ||  -- 2[0-4][0-9]
    ((a == '0' || a == '1') && isDigitC b && isDigitC c)         -- [01][0-9][0-9]
  | _ => false

/-- `isValidIPv4` of `ipUtils.ts`: the anchored regular expression
`^G\.G\.G\.G$` with `G` the octet group above.  Since `G` never matches
a dot and never matches the empty string, a string matches the anchored
expression exactly when splitting it at every dot yields four groups
that each match `G`. -/
def isValidIPv4 (ip : String) : Bool :=
  match splitDot ip.data with
  | [a, b, c, d] => validOctet a && validOctet b && validOctet c && validOctet d
  | _ => false

/-- `ip.split('.').map(o => parseInt(o, 10))`, the octet list of a
dotted string as JavaScript numbers. -/
def octetsOfStr (s : String) : List Int :=
  (splitDot s.data).map (fun g => (parseDecDigits g : Int))

/-- Render a list of JavaScript numbers as a dotted string,
`octets.join('.')`. -/
def ofOctets (l : List Int) : String :=
  ⟨joinDot (l.map renderInt)⟩

/-! ## Data model (`types.ts`) -/

/-- `IPv4Address` of `types.ts`.  Octets are JavaScript numbers. -/
structure IPv4Address where
  address : String
  octets : List Int
  binaryOctets : List String
  decimalValue : Int
deriving DecidableEq, Repr

/-- `SubnetInfo` of `types.ts`.  `numberOfSubnets` is
`Math.pow(2, cidr - originalCIDR)`, which the source lets be fractional
when the mask is shorter than the assumed classful default, so it is
modelled as a rational. -/
structure SubnetInfo where
  networkAddress : String
  subnetMask : String
  cidrNotation : String
  wildcardMask : String
  hostRange : String × String
  broadcastAddress : String
  numberOfHosts : Int
  numberOfSubnets : ℚ
deriving DecidableEq, Repr

/-- `SubnetDetails` of `types.ts`: one partition member. -/
structure SubnetDetails where
  subnetId : Int
  subnetAddress : String
  hostAddressRange : String
  broadcastAddress : String
deriving DecidableEq, Repr

/-- `SubnetCalculationResult extends SubnetInfo`. -/
structure SubnetCalculationResult where
  info : SubnetInfo
  subnetDetails : List SubnetDetails
deriving DecidableEq, Repr

/-! ## `ipUtils.ts` -/

/-- `parseIPv4` of `ipUtils.ts`.  `decimalValue` is
`(octets[0] << 24) | (octets[1] << 16) | (octets[2] << 8) | octets[3]`
computed with the JavaScript 32-bit operators, hence a signed 32-bit
value.  `binaryOctets` is `octets.map(o => o.toString(2).padStart(8, '0'))`. -/
def parseIPv4 (ip : String) : Except String IPv4Address :=
  if !isValidIPv4 ip then .error ("Invalid IPv4 address: " ++ ip)
  else
    let octets := octetsOfStr ip
    let binaryOctets := octets.map (fun o => (⟨padStart8 (renderBin o.toNat)⟩ : String))
    let decimalValue :=
      jsOr (jsOr (jsOr (jsShl (octets.getD 0 0) 24) (jsShl (octets.getD 1 0) 16))
        (jsShl (octets.getD 2 0) 8)) (octets.getD 3 0)
    .ok { address := ip, octets := octets, binaryOctets := binaryOctets,
          decimalValue := decimalValue }

/-- `cidrToSubnetMask` of `ipUtils.ts`: start from `0xffffffff` and, when
`cidr < 32`, shift left by `32 - cidr` with the JavaScript `<<` operator
(whose shift count is taken mod 32); then emit the four bytes. -/
def cidrToSubnetMask (cidr : Int) : Except String String :=
  if cidr < 0 || cidr > 32 then .error ("Invalid CIDR prefix: " ++ toString cidr)
  else
    let mask : Int := 0xffffffff
    let mask := if cidr < 32 then jsShl mask (32 - cidr) else mask
    .ok (ofOctets [jsAnd (jsUShr mask 24) 0xff, jsAnd (jsUShr mask 16) 0xff,
                   jsAnd (jsUShr mask 8) 0xff, jsAnd mask 0xff])

/-- The source's per-octet popcount loop
`while (bits) { cidr += bits & 1; bits >>>= 1 }`, structural on a fuel
argument (the octet loses one bit per step, so `n + 1` steps suffice). -/
def popBitsAux : Nat → Nat → Nat
  | 0, _ => 0
  | fuel + 1, n => if n = 0 then 0 else (n &&& 1) + popBitsAux fuel (n >>> 1)

/-- Popcount of one octet, the body of `subnetMaskToCIDR`'s inner loop. -/
def popBits (n : Nat) : Nat := popBitsAux (n + 1) n

/-- `subnetMaskToCIDR` of `ipUtils.ts`: validate, then sum the popcounts
of the four octets (no contiguity check). -/
def subnetMaskToCIDR (subnetMask : String) : Except String Int :=
  if !isValidIPv4 subnetMask then .error ("Invalid subnet mask: " ++ subnetMask)
  else
    .ok (((splitDot subnetMask.data).map parseDecDigits).foldl
      (fun cidr octet => cidr + (popBits octet : Int)) 0)

/-- `calculateWildcardMask` of `ipUtils.ts`: `octets.map(o => 255 - o)`,
no validation. -/
def calculateWildcardMask (subnetMask : String) : String :=
  ofOctets ((octetsOfStr subnetMask).map (fun o => 255 - o))

/-- `calculateNetworkAddress` of `ipUtils.ts`:
`ipOctets.map((octet, i) => octet & maskOctets[i])`, no validation. -/
def calculateNetworkAddress (ip subnetMask : String) : String :=
  ofOctets (List.zipWith (fun o m => jsAnd o m) (octetsOfStr ip) (octetsOfStr subnetMask))

/-- `calculateBroadcastAddress` of `ipUtils.ts`: OR the network octets
with the wildcard octets `255 - m`. -/
def calculateBroadcastAddress (networkAddress subnetMask : String) : String :=
  ofOctets (List.zipWith (fun o w => jsOr o w) (octetsOfStr networkAddress)
    ((octetsOfStr subnetMask).map (fun m => 255 - m)))

/-- `calculateHostRange` of `ipUtils.ts`: copy the octet arrays and add 1
to (respectively subtract 1 from) entry 3 only — there is no carry into
the higher octets, so an entry of 256 or -1 can be produced. -/
def calculateHostRange (networkAddress broadcastAddress : String) :
    String × String :=
  let networkOctets := octetsOfStr networkAddress
  let broadcastOctets := octetsOfStr broadcastAddress
  let firstOctets := networkOctets.set 3 (networkOctets.getD 3 0 + 1)
  let lastOctets := broadcastOctets.set 3 (broadcastOctets.getD 3 0 - 1)
  (ofOctets firstOctets, ofOctets lastOctets)

/-- `calculateNumberOfHosts` of `ipUtils.ts`. -/
def calculateNumberOfHosts (cidr : Int) : Int :=
  if cidr ≥ 31 then (if cidr = 31 then 2 else 1)
  else (2 ^ (32 - cidr).toNat : Int) - 2

/-- `addToIP` of `ipUtils.ts`: add the (possibly negative) delta to the
parsed `decimalValue` and re-emit the four bytes with `>>>`/`&`. -/
def addToIP (ip : String) (value : Int) : Except String String :=
  match parseIPv4 ip with
  | .error e => .error e
  | .ok parsed =>
    let newDecimalValue := parsed.decimalValue + value
    .ok (ofOctets [jsAnd (jsUShr newDecimalValue 24) 0xff,
                   jsAnd (jsUShr newDecimalValue 16) 0xff,
                   jsAnd (jsUShr newDecimalValue 8) 0xff,
                   jsAnd newDecimalValue 0xff])

/-! ## `SubnetCalculator` (methods of the stateless calculator class) -/

/-- Least `k` with `n ≤ 2^k`, accumulating upward; structural on fuel. -/
def ceilLog2Aux (n : Nat) : Nat → Nat → Nat
  | k, 0 => k
  | k, fuel + 1 => if n ≤ 2 ^ k then k else ceilLog2Aux n (k + 1) fuel

/-- `Math.ceil(Math.log2 n)` for an integer `n ≥ 1`: the least `k` with
`n ≤ 2^k` (capped at 64, far beyond every value reachable here; any
`n > 2^30` already violates the `newCIDR > 30` capacity guard either
way).  For the integers in this program's range `Math.log2` is exact
enough that the ceiling agrees with the mathematical ⌈log₂ n⌉. -/
def ceilLog2 (n : Nat) : Nat := ceilLog2Aux n 0 64

/-- `SubnetCalculator.calculate`: validate both operands, derive every
single-block fact.  `subnetMaskToCIDR` cannot throw after the mask
passed validation, but the call is kept as in the source. -/
def calculate (ipAddress subnetMask : String) : Except String SubnetInfo :=
  if !isValidIPv4 ipAddress then .error ("Invalid IP address: " ++ ipAddress)
  else if !isValidIPv4 subnetMask then .error ("Invalid subnet mask: " ++ subnetMask)
  else
    match subnetMaskToCIDR subnetMask with
    | .error e => .error e
    | .ok cidr =>
      let wildcardMask := calculateWildcardMask subnetMask
      let networkAddress := calculateNetworkAddress ipAddress subnetMask
      let broadcastAddress := calculateBroadcastAddress networkAddress subnetMask
      let hostRange := calculateHostRange networkAddress broadcastAddress
      let numberOfHosts := calculateNumberOfHosts cidr
      -- parseInt(networkAddress.split('.')[0], 10), compared with 128 / 192
      let firstOctet := (octetsOfStr networkAddress).getD 0 0
      let originalCIDR : Int := 8
      let originalCIDR := if firstOctet ≥ 128 then 16 else originalCIDR
      let originalCIDR := if firstOctet ≥ 192 then 24 else originalCIDR
      let numberOfSubnets : ℚ := (2 : ℚ) ^ (cidr - originalCIDR)
      .ok { networkAddress := networkAddress,
            subnetMask := subnetMask,
            cidrNotation := networkAddress ++ "/" ++ toString cidr,
            wildcardMask := wildcardMask,
            hostRange := hostRange,
            broadcastAddress := broadcastAddress,
            numberOfHosts := numberOfHosts,
            numberOfSubnets := numberOfSubnets }

/-- The body of `calculateSubnets`' partition loop for index `i`. -/
def subnetMember (networkAddress : String) (subnetSize : Int) (i : Nat) :
    Except String SubnetDetails :=
  match addToIP networkAddress ((i : Int) * subnetSize) with
  | .error e => .error e
  | .ok subnetAddress =>
    match addToIP subnetAddress (subnetSize - 1) with
    | .error e => .error e
    | .ok broadcastAddress =>
      match addToIP subnetAddress 1, addToIP broadcastAddress (-1) with
      | .ok first, .ok last =>
        .ok { subnetId := (i : Int) + 1,
              subnetAddress := subnetAddress,
              hostAddressRange := first ++ " - " ++ last,
              broadcastAddress := broadcastAddress }
      | .error e, _ => .error e
      | _, .error e => .error e

/-- `SubnetCalculator.calculateSubnets`.  The source computes
`additionalBits = Math.ceil(Math.log2(desiredSubnets))` with no check on
`desiredSubnets`, so the three IEEE regimes of `Math.log2` are modelled
case by case:
* `desiredSubnets ≥ 1`: `additionalBits = ⌈log₂ n⌉` exactly;
* `desiredSubnets = 0`: `Math.log2 0 = -∞`, so `newCIDR = -∞`, the
  `newCIDR > 30` test is false, and `cidrToSubnetMask(-∞)` throws
  `Invalid CIDR prefix: -Infinity`;
* `desiredSubnets < 0`: `Math.log2` returns NaN, every comparison on
  NaN is false, so no guard fires, `cidrToSubnetMask(NaN)` skips its
  range checks and its shift and returns `255.255.255.255`, the subnet
  size and count are NaN, and the loop `i < NaN` runs zero times: the
  call succeeds with an empty `subnetDetails`. -/
def calculateSubnets (networkAddress subnetMask : String)
    (desiredSubnets : Int) : Except String SubnetCalculationResult :=
  match calculate networkAddress subnetMask with
  | .error e => .error e
  | .ok subnetInfo =>
    match subnetMaskToCIDR subnetMask with
    | .error e => .error e
    | .ok cidr =>
      if 1 ≤ desiredSubnets then
        let additionalBits : Int := (ceilLog2 desiredSubnets.toNat : Int)
        let newCIDR := cidr + additionalBits
        if newCIDR > 30 then
          .error ("요청한 서브넷 수 (" ++ toString desiredSubnets ++
            ")가 너무 많습니다. 최대 CIDR은 /30입니다.")
        else
          match cidrToSubnetMask newCIDR with
          | .error e => .error e
          | .ok _newSubnetMask =>
            let subnetSize : Int := (2 : Int) ^ (32 - newCIDR).toNat
            let actualSubnets : Nat := 2 ^ additionalBits.toNat
            match (List.range actualSubnets).mapM
                (subnetMember networkAddress subnetSize) with
            | .error e => .error e
            | .ok subnetDetails =>
              .ok { info := subnetInfo, subnetDetails := subnetDetails }
      else if desiredSubnets = 0 then
        .error "Invalid CIDR prefix: -Infinity"
      else
        .ok { info := subnetInfo, subnetDetails := [] }

/-- `SubnetCalculator.calculateSubnetMaskFromHostCount`:
`hostBits = Math.ceil(Math.log2(hostCount + 2))`, `cidr = 32 - hostBits`,
throw when `cidr < 0`, else convert.  As above the IEEE regimes of
`Math.log2` at non-positive arguments (`hostCount ≤ -2`) are modelled
case by case. -/
def calculateSubnetMaskFromHostCount (hostCount : Int) : Except String String :=
  if 1 ≤ hostCount + 2 then
    let hostBits : Int := (ceilLog2 (hostCount + 2).toNat : Int)
    let cidr := 32 - hostBits
    if cidr < 0 then
      .error "요청한 호스트 수가 IPv4에서 지원하는 최대 범위를 초과합니다."
    else cidrToSubnetMask cidr
  else if hostCount + 2 = 0 then
    -- Math.log2 0 = -∞: cidr = +∞, the `cidr < 0` test is false and
    -- `cidrToSubnetMask(∞)` throws its range error.
    .error "Invalid CIDR prefix: Infinity"
  else
    -- Math.log2 of a negative number is NaN: no guard fires and
    -- `cidrToSubnetMask(NaN)` skips its range checks and its shift.
    .ok "255.255.255.255"

/-! ## Specification-side notions

These definitions are stated independently of the implementation (by
div/mod arithmetic and `testBit` counting) and are what the claims are
phrased with. -/

/-- The unsigned 32-bit value of four octets,
`a·2^24 + b·2^16 + c·2^8 + d` (nested form). -/
def byteVal (a b c d : Nat) : Nat := ((a * 256 + b) * 256 + c) * 256 + d

/-- The octets of a dotted string, as naturals. -/
def octetsN (s : String) : List Nat := (splitDot s.data).map parseDecDigits

/-- The unsigned 32-bit integer denoted by a dotted-decimal string. -/
def ipValue (s : String) : Nat :=
  match octetsN s with
  | [a, b, c, d] => byteVal a b c d
  | _ => 0

/-- Canonical dotted-decimal encoding of an unsigned 32-bit value,
by div/mod byte extraction. -/
def encodeU32 (v : Nat) : String :=
  ofOctets [(v / 2 ^ 24 % 256 : Nat), (v / 2 ^ 16 % 256 : Nat),
            (v / 2 ^ 8 % 256 : Nat), (v % 256 : Nat)]

/-- Number of 1-bits of an octet (population count over bit positions
0–7). -/
def bitCount8 (o : Nat) : Nat := (List.range 8).countP (fun i => o.testBit i)

/-- Total number of 1-bits across the four octets of a mask string. -/
def maskBits (s : String) : Nat := ((octetsN s).map bitCount8).sum

/-- Decode a binary character string (as produced by
`Number.prototype.toString(2)`). -/
def binDecode (l : List Char) : Nat :=
  l.foldl (fun a c => 2 * a + (if c = '1' then 1 else 0)) 0

/-- The partition member list that claim C3 predicts: member `i` has
identifier `i + 1`, network `base + i·size (mod 2^32)`, broadcast
`network + size - 1 (mod 2^32)`, and host range from `network + 1` to
`broadcast - 1` (all in wrapping 32-bit arithmetic). -/
def specMembers (base size count : Nat) : List SubnetDetails :=
  (List.range count).map (fun i =>
    let net := (base + i * size) % 2 ^ 32
    let bc := (net + (size - 1)) % 2 ^ 32
    { subnetId := (i : Int) + 1,
      subnetAddress := encodeU32 net,
      hostAddressRange :=
        encodeU32 ((net + 1) % 2 ^ 32) ++ " - " ++ encodeU32 ((bc + (2 ^ 32 - 1)) % 2 ^ 32),
      broadcastAddress := encodeU32 bc })

/-! ## Arithmetic lemmas for the 32-bit model -/

lemma toUInt32_natCast (n : Nat) (h : n < 2 ^ 32) : toUInt32 (n : Int) = n := by
  unfold toUInt32; omega

lemma toInt32_natCast (n : Nat) (h : n < 2 ^ 31) : toInt32 (n : Int) = n := by
  unfold toInt32; omega

lemma toUInt32_toInt32_natCast (n : Nat) (h : n < 2 ^ 32) :
    toUInt32 (toInt32 (n : Int)) = n := by
  unfold toUInt32 toInt32; omega

lemma toInt32_natCast_emod (n : Nat) (h : n < 2 ^ 32) :
    toInt32 (n : Int) % 2 ^ 32 = (n : Int) := by
  unfold toInt32; omega

lemma toInt32_natCast_bounds (n : Nat) :
    -2 ^ 31 ≤ toInt32 (n : Int) ∧ toInt32 (n : Int) < 2 ^ 31 := by
  unfold toInt32; omega

lemma toUInt32_toInt32_add (v : Nat) (hv : v < 2 ^ 32) (δ : Int) :
    toUInt32 (toInt32 (v : Int) + δ) = (((v : Int) + δ) % 2 ^ 32).toNat := by
  unfold toUInt32 toInt32; omega

/-! ## Facts about octet rendering, popcounts and binary strings,
established by exhausting the 256 octet values -/

set_option maxRecDepth 100000 in
lemma renderNat_facts : ∀ o : Fin 256,
    validOctet (renderNat o.val) = true ∧
    parseDecDigits (renderNat o.val) = o.val ∧
    '.' ∉ renderNat o.val := by decide

set_option maxRecDepth 100000 in
lemma popBits_eq_bitCount8 : ∀ o : Fin 256, popBits o.val = bitCount8 o.val := by
  decide

set_option maxRecDepth 100000 in
lemma sub_eq_xor_255 : ∀ o : Fin 256, 255 - o.val = 255 ^^^ o.val := by decide

set_option maxRecDepth 100000 in
lemma bin_facts : ∀ o : Fin 256,
    (padStart8 (renderBin o.val)).length = 8 ∧
    binDecode (padStart8 (renderBin o.val)) = o.val := by decide

/-- `renderInt` of a non-negative value is `renderNat`. -/
lemma renderInt_natCast (n : Nat) : renderInt (n : Int) = renderNat n := by
  unfold renderInt
  rw [if_neg (by omega)]
  simp

/-! ## Split / join -/

lemma splitDot_cons_ne {c : Char} (h : ¬c = '.') (l : List Char) {g : List Char}
    {gs : List (List Char)} (hl : splitDot l = g :: gs) :
    splitDot (c :: l) = (c :: g) :: gs := by
  simp only [splitDot, if_neg h, hl]

lemma splitDot_dotfree (g : List Char) (hg : '.' ∉ g) : splitDot g = [g] := by
  induction g with
  | nil => rfl
  | cons c cs ih =>
    simp only [List.mem_cons, not_or] at hg
    exact splitDot_cons_ne (fun h => hg.1 h.symm) cs (ih hg.2)

lemma splitDot_append (g l : List Char) (hg : '.' ∉ g) :
    splitDot (g ++ '.' :: l) = g :: splitDot l := by
  induction g with
  | nil => simp [splitDot]
  | cons c cs ih =>
    simp only [List.mem_cons, not_or] at hg
    exact splitDot_cons_ne (fun h => hg.1 h.symm) _ (ih hg.2)

lemma splitDot_joinDot (L : List (List Char)) (hne : L ≠ [])
    (h : ∀ g ∈ L, '.' ∉ g) : splitDot (joinDot L) = L := by
  induction L with
  | nil => exact absurd rfl hne
  | cons g gs ih =>
    cases gs with
    | nil => exact splitDot_dotfree g (h g (by simp))
    | cons g₂ gs₂ =>
      show splitDot (g ++ '.' :: joinDot (g₂ :: gs₂)) = _
      rw [splitDot_append g _ (h g (by simp)),
        ih (by simp) (fun x hx => h x (List.mem_cons_of_mem g hx))]

/-- Splitting a rendered four-octet string recovers the four renderings. -/
lemma splitDot_ofOctets4 {a b c d : Nat} (ha : a < 256) (hb : b < 256)
    (hc : c < 256) (hd : d < 256) :
    splitDot (ofOctets [(a : Int), (b : Int), (c : Int), (d : Int)]).data
      = [renderNat a, renderNat b, renderNat c, renderNat d] := by
  show splitDot (joinDot ([(a : Int), (b : Int), (c : Int), (d : Int)].map renderInt)) = _
  simp only [List.map_cons, List.map_nil, renderInt_natCast]
  refine splitDot_joinDot _ (by simp) ?_
  intro g hg
  simp only [List.mem_cons, List.not_mem_nil, or_false] at hg
  rcases hg with rfl | rfl | rfl | rfl
  · exact (renderNat_facts ⟨a, ha⟩).2.2
  · exact (renderNat_facts ⟨b, hb⟩).2.2
  · exact (renderNat_facts ⟨c, hc⟩).2.2
  · exact (renderNat_facts ⟨d, hd⟩).2.2

/-- Octets of a rendered four-octet string. -/
lemma octetsN_ofOctets4 {a b c d : Nat} (ha : a < 256) (hb : b < 256)
    (hc : c < 256) (hd : d < 256) :
    octetsN (ofOctets [(a : Int), (b : Int), (c : Int), (d : Int)]) = [a, b, c, d] := by
  unfold octetsN
  rw [splitDot_ofOctets4 ha hb hc hd]
  simp only [List.map_cons, List.map_nil]
  rw [(renderNat_facts ⟨a, ha⟩).2.1, (renderNat_facts ⟨b, hb⟩).2.1,
    (renderNat_facts ⟨c, hc⟩).2.1, (renderNat_facts ⟨d, hd⟩).2.1]

lemma isValidIPv4_ofOctets4 {a b c d : Nat} (ha : a < 256) (hb : b < 256)
    (hc : c < 256) (hd : d < 256) :
    isValidIPv4 (ofOctets [(a : Int), (b : Int), (c : Int), (d : Int)]) = true := by
  unfold isValidIPv4
  rw [splitDot_ofOctets4 ha hb hc hd]
  show (validOctet (renderNat a) && validOctet (renderNat b) &&
    validOctet (renderNat c) && validOctet (renderNat d)) = true
  rw [(renderNat_facts ⟨a, ha⟩).1, (renderNat_facts ⟨b, hb⟩).1,
    (renderNat_facts ⟨c, hc⟩).1, (renderNat_facts ⟨d, hd⟩).1]
  rfl

lemma ipValue_ofOctets4 {a b c d : Nat} (ha : a < 256) (hb : b < 256)
    (hc : c < 256) (hd : d < 256) :
    ipValue (ofOctets [(a : Int), (b : Int), (c : Int), (d : Int)]) = byteVal a b c d := by
  unfold ipValue
  rw [octetsN_ofOctets4 ha hb hc hd]

/-! ## Bytewise structure of AND / OR / XOR on 32-bit values -/

lemma b2_and (x u : Nat) {y v : Nat} (hy : y < 256) (hv : v < 256) :
    (x * 256 + y) &&& (u * 256 + v) = (x &&& u) * 256 + (y &&& v) := by
  have h256 : (256 : Nat) = 2 ^ 8 := by norm_num
  have hyv : y &&& v < 256 := Nat.lt_of_le_of_lt Nat.and_le_left hy
  rw [h256] at hy hv hyv
  apply Nat.eq_of_testBit_eq
  intro i
  simp only [show ∀ t : Nat, t * 256 = 2 ^ 8 * t from fun t => by ring]
  rw [Nat.testBit_and, Nat.testBit_mul_pow_two_add _ hy,
    Nat.testBit_mul_pow_two_add _ hv, Nat.testBit_mul_pow_two_add _ hyv]
  by_cases hi : i < 8 <;> simp [hi, Nat.testBit_and]

lemma b2_or (x u : Nat) {y v : Nat} (hy : y < 256) (hv : v < 256) :
    (x * 256 + y) ||| (u * 256 + v) = (x ||| u) * 256 + (y ||| v) := by
  have h256 : (256 : Nat) = 2 ^ 8 := by norm_num
  have hyv : y ||| v < 256 := by rw [h256] at hy hv ⊢; exact Nat.or_lt_two_pow hy hv
  rw [h256] at hy hv hyv
  apply Nat.eq_of_testBit_eq
  intro i
  simp only [show ∀ t : Nat, t * 256 = 2 ^ 8 * t from fun t => by ring]
  rw [Nat.testBit_or, Nat.testBit_mul_pow_two_add _ hy,
    Nat.testBit_mul_pow_two_add _ hv, Nat.testBit_mul_pow_two_add _ hyv]
  by_cases hi : i < 8 <;> simp [hi, Nat.testBit_or]

lemma b2_xor (x u : Nat) {y v : Nat} (hy : y < 256) (hv : v < 256) :
    (x * 256 + y) ^^^ (u * 256 + v) = (x ^^^ u) * 256 + (y ^^^ v) := by
  have h256 : (256 : Nat) = 2 ^ 8 := by norm_num
  have hyv : y ^^^ v < 256 := by rw [h256] at hy hv ⊢; exact Nat.xor_lt_two_pow hy hv
  rw [h256] at hy hv hyv
  apply Nat.eq_of_testBit_eq
  intro i
  simp only [show ∀ t : Nat, t * 256 = 2 ^ 8 * t from fun t => by ring]
  rw [Nat.testBit_xor, Nat.testBit_mul_pow_two_add _ hy,
    Nat.testBit_mul_pow_two_add _ hv, Nat.testBit_mul_pow_two_add _ hyv]
  by_cases hi : i < 8 <;> simp [hi, Nat.testBit_xor]

lemma byteVal_and {a b c d e f g h : Nat} (hb : b < 256) (hc : c < 256)
    (hd : d < 256) (hf : f < 256) (hg : g < 256) (hh : h < 256) :
    byteVal a b c d &&& byteVal e f g h
      = byteVal (a &&& e) (b &&& f) (c &&& g) (d &&& h) := by
  unfold byteVal
  rw [b2_and _ _ hd hh, b2_and _ _ hc hg, b2_and _ _ hb hf]

lemma byteVal_or {a b c d e f g h : Nat} (hb : b < 256) (hc : c < 256)
    (hd : d < 256) (hf : f < 256) (hg : g < 256) (hh : h < 256) :
    byteVal a b c d ||| byteVal e f g h
      = byteVal (a ||| e) (b ||| f) (c ||| g) (d ||| h) := by
  unfold byteVal
  rw [b2_or _ _ hd hh, b2_or _ _ hc hg, b2_or _ _ hb hf]

lemma byteVal_xor {a b c d e f g h : Nat} (hb : b < 256) (hc : c < 256)
    (hd : d < 256) (hf : f < 256) (hg : g < 256) (hh : h < 256) :
    byteVal a b c d ^^^ byteVal e f g h
      = byteVal (a ^^^ e) (b ^^^ f) (c ^^^ g) (d ^^^ h) := by
  unfold byteVal
  rw [b2_xor _ _ hd hh, b2_xor _ _ hc hg, b2_xor _ _ hb hf]

lemma byteVal_lt {a b c d : Nat} (ha : a < 256) (hb : b < 256)
    (hc : c < 256) (hd : d < 256) : byteVal a b c d < 2 ^ 32 := by
  unfold byteVal; omega

lemma byteVal_decompose (a b c d : Nat) :
    byteVal a b c d = 2 ^ 24 * a + (2 ^ 16 * b + (2 ^ 8 * c + d)) := by
  unfold byteVal; ring

/-! ## The JavaScript operators on small non-negative operands -/

lemma jsAnd_small (x y : Nat) (hx : x < 2 ^ 31) (hy : y < 2 ^ 31) :
    jsAnd (x : Int) (y : Int) = ((x &&& y : Nat) : Int) := by
  unfold jsAnd
  rw [toUInt32_natCast x (by omega), toUInt32_natCast y (by omega),
    toInt32_natCast _ (Nat.lt_of_le_of_lt Nat.and_le_left hx)]

lemma jsOr_small (x y : Nat) (hx : x < 2 ^ 31) (hy : y < 2 ^ 31) :
    jsOr (x : Int) (y : Int) = ((x ||| y : Nat) : Int) := by
  unfold jsOr
  rw [toUInt32_natCast x (by omega), toUInt32_natCast y (by omega),
    toInt32_natCast _ (Nat.or_lt_two_pow hx hy)]

lemma jsOr_toInt32 (x y : Nat) (hx : x < 2 ^ 32) (hy : y < 2 ^ 32) :
    jsOr (toInt32 (x : Int)) (toInt32 (y : Int)) = toInt32 ((x ||| y : Nat) : Int) := by
  unfold jsOr
  rw [toUInt32_toInt32_natCast x hx, toUInt32_toInt32_natCast y hy]

/-- The `decimalValue` expression of `parseIPv4` is the signed 32-bit
reinterpretation of the unsigned 32-bit value of the four octets. -/
lemma decimalValue_eq {a b c d : Nat} (ha : a < 256) (hb : b < 256)
    (hc : c < 256) (hd : d < 256) :
    jsOr (jsOr (jsOr (jsShl (a : Int) 24) (jsShl (b : Int) 16))
        (jsShl (c : Int) 8)) (d : Int)
      = toInt32 ((byteVal a b c d : Nat) : Int) := by
  have sh : ∀ (x : Nat) (k : Int) (kn : Nat), x < 256 → toUInt32 k % 32 = kn →
      jsShl (x : Int) k = toInt32 ((x <<< kn : Nat) : Int) := by
    intro x k kn hx hk
    unfold jsShl
    rw [toUInt32_natCast x (by omega), hk]
  rw [sh a 24 24 ha (by decide), sh b 16 16 hb (by decide), sh c 8 8 hc (by decide)]
  have h24 : (a <<< 24 : Nat) < 2 ^ 32 := by rw [Nat.shiftLeft_eq]; omega
  have h16 : (b <<< 16 : Nat) < 2 ^ 32 := by rw [Nat.shiftLeft_eq]; omega
  have h8 : (c <<< 8 : Nat) < 2 ^ 32 := by rw [Nat.shiftLeft_eq]; omega
  rw [jsOr_toInt32 _ _ h24 h16,
    jsOr_toInt32 _ _ (Nat.or_lt_two_pow h24 h16) h8,
    ← toInt32_natCast d (by omega),
    jsOr_toInt32 _ _ (Nat.or_lt_two_pow (Nat.or_lt_two_pow h24 h16) h8) (by omega)]
  congr 2
  rw [Nat.shiftLeft_eq, Nat.shiftLeft_eq, Nat.shiftLeft_eq,
    Nat.or_assoc, Nat.or_assoc, byteVal_decompose,
    Nat.mul_add_lt_is_or (by omega) a, Nat.mul_add_lt_is_or (by omega) b,
    Nat.mul_add_lt_is_or (by omega) c]
  ring_nf

/-! ## Validated strings: their octets are below 256 -/

lemma validOctet_lt {g : List Char} (h : validOctet g = true) :
    parseDecDigits g < 256 := by
  rcases g with _ | ⟨x, _ | ⟨y, _ | ⟨z, _ | rest⟩⟩⟩
  · simp [validOctet] at h
  · simp only [validOctet, isDigitC, Bool.and_eq_true, decide_eq_true_eq] at h
    simp only [parseDecDigits, List.foldl]
    omega
  · simp only [validOctet, isDigitC, Bool.and_eq_true, decide_eq_true_eq] at h
    simp only [parseDecDigits, List.foldl]
    omega
  · simp only [validOctet, isDigitC, Bool.or_eq_true, Bool.and_eq_true,
      beq_iff_eq, decide_eq_true_eq] at h
    simp only [parseDecDigits, List.foldl]
    have h0 : ('0' : Char).toNat = 48 := rfl
    have h1 : ('1' : Char).toNat = 49 := rfl
    have h2 : ('2' : Char).toNat = 50 := rfl
    have h5 : ('5' : Char).toNat = 53 := rfl
    rcases h with (⟨⟨⟨rfl, rfl⟩, hz1⟩, hz2⟩ | ⟨⟨⟨rfl, hy1⟩, hy2⟩, hz1, hz2⟩) |
      ⟨⟨hx, hy1, hy2⟩, hz1, hz2⟩
    · rw [h2, h5]; omega
    · rw [h2]; omega
    · rcases hx with rfl | rfl
      · rw [h0]; omega
      · rw [h1]; omega
  · simp [validOctet] at h

lemma valid_octets {s : String} (h : isValidIPv4 s = true) :
    ∃ a b c d : Nat, octetsN s = [a, b, c, d] ∧
      a < 256 ∧ b < 256 ∧ c < 256 ∧ d < 256 := by
  unfold isValidIPv4 at h
  rcases hsp : splitDot s.data with _ | ⟨g1, _ | ⟨g2, _ | ⟨g3, _ | ⟨g4, _ | rest⟩⟩⟩⟩ <;>
    rw [hsp] at h <;> simp only [Bool.and_eq_true] at h
  case cons.cons.cons.cons.nil =>
    obtain ⟨⟨⟨h1, h2⟩, h3⟩, h4⟩ := h
    exact ⟨parseDecDigits g1, parseDecDigits g2, parseDecDigits g3, parseDecDigits g4,
      by unfold octetsN; rw [hsp]; rfl,
      validOctet_lt h1, validOctet_lt h2, validOctet_lt h3, validOctet_lt h4⟩
  all_goals simp at h

lemma octetsOfStr_eq (s : String) :
    octetsOfStr s = List.map (fun n : Nat => (n : Int)) (octetsN s) := by
  unfold octetsOfStr octetsN
  rw [List.map_map]
  rfl

/-- `parseIPv4` on a valid string, fully characterised. -/
lemma parseIPv4_ok {s : String} (h : isValidIPv4 s = true) {a b c d : Nat}
    (ho : octetsN s = [a, b, c, d]) :
    parseIPv4 s = .ok
      { address := s,
        octets := [(a : Int), (b : Int), (c : Int), (d : Int)],
        binaryOctets := [(⟨padStart8 (renderBin a)⟩ : String), ⟨padStart8 (renderBin b)⟩,
          ⟨padStart8 (renderBin c)⟩, ⟨padStart8 (renderBin d)⟩],
        decimalValue := jsOr (jsOr (jsOr (jsShl (a : Int) 24) (jsShl (b : Int) 16))
          (jsShl (c : Int) 8)) (d : Int) } := by
  have hoct : octetsOfStr s = [(a : Int), (b : Int), (c : Int), (d : Int)] := by
    rw [octetsOfStr_eq, ho]; rfl
  unfold parseIPv4
  rw [h, hoct]
  rfl

/-! ## `encodeU32` and `addToIP` -/

lemma isValidIPv4_encodeU32 (u : Nat) : isValidIPv4 (encodeU32 u) = true :=
  isValidIPv4_ofOctets4 (by omega) (by omega) (by omega) (Nat.mod_lt _ (by omega))

lemma octetsN_encodeU32 (u : Nat) :
    octetsN (encodeU32 u) = [u / 2 ^ 24 % 256, u / 2 ^ 16 % 256, u / 2 ^ 8 % 256, u % 256] :=
  octetsN_ofOctets4 (by omega) (by omega) (by omega) (Nat.mod_lt _ (by omega))

lemma ipValue_encodeU32 (u : Nat) (h : u < 2 ^ 32) : ipValue (encodeU32 u) = u := by
  unfold ipValue
  rw [octetsN_encodeU32 u]
  show byteVal (u / 2 ^ 24 % 256) (u / 2 ^ 16 % 256) (u / 2 ^ 8 % 256) (u % 256) = u
  unfold byteVal
  omega

/-- `addToIP` on a valid address: the wrapped 32-bit sum, re-encoded. -/
lemma addToIP_ok {s : String} (h : isValidIPv4 s = true) (δ : Int) :
    addToIP s δ = .ok (encodeU32 ((((ipValue s : Int) + δ) % 2 ^ 32).toNat)) := by
  obtain ⟨a, b, c, d, ho, ha, hb, hc, hd⟩ := valid_octets h
  have hv : ipValue s = byteVal a b c d := by unfold ipValue; rw [ho]
  have hvlt : byteVal a b c d < 2 ^ 32 := byteVal_lt ha hb hc hd
  rw [hv]
  unfold addToIP
  rw [parseIPv4_ok h ho, decimalValue_eq ha hb hc hd]
  dsimp only
  have hu : toUInt32 (toInt32 ((byteVal a b c d : Nat) : Int) + δ)
      = ((((byteVal a b c d : Nat) : Int) + δ) % 2 ^ 32).toNat :=
    toUInt32_toInt32_add _ hvlt δ
  set u : Nat := ((((byteVal a b c d : Nat) : Int) + δ) % 2 ^ 32).toNat with hudef
  have hult : u < 2 ^ 32 := by rw [hudef]; omega
  have hbyte : ∀ x : Nat, x < 2 ^ 31 → jsAnd (x : Int) 255 = ((x % 256 : Nat) : Int) := by
    intro x hx
    have hand : x &&& 255 = x % 256 := by
      have he : (255 : Nat) = 2 ^ 8 - 1 := by norm_num
      rw [he, Nat.and_pow_two_sub_one_eq_mod]
    have h255 : ((255 : Nat) : Int) = (255 : Int) := by norm_num
    rw [← h255, jsAnd_small x 255 hx (by omega), hand]
  have t24 : toUInt32 (24 : Int) % 32 = 24 := by rfl
  have t16 : toUInt32 (16 : Int) % 32 = 16 := by rfl
  have t8 : toUInt32 (8 : Int) % 32 = 8 := by rfl
  have e24 : jsAnd (jsUShr (toInt32 ((byteVal a b c d : Nat) : Int) + δ) 24) 255
      = ((u / 2 ^ 24 % 256 : Nat) : Int) := by
    unfold jsUShr
    rw [hu, t24, Nat.shiftRight_eq_div_pow, hbyte _ (by omega)]
  have e16 : jsAnd (jsUShr (toInt32 ((byteVal a b c d : Nat) : Int) + δ) 16) 255
      = ((u / 2 ^ 16 % 256 : Nat) : Int) := by
    unfold jsUShr
    rw [hu, t16, Nat.shiftRight_eq_div_pow, hbyte _ (by omega)]
  have e8 : jsAnd (jsUShr (toInt32 ((byteVal a b c d : Nat) : Int) + δ) 8) 255
      = ((u / 2 ^ 8 % 256 : Nat) : Int) := by
    unfold jsUShr
    rw [hu, t8, Nat.shiftRight_eq_div_pow, hbyte _ (by omega)]
  have e0 : jsAnd (toInt32 ((byteVal a b c d : Nat) : Int) + δ) 255
      = ((u % 256 : Nat) : Int) := by
    unfold jsAnd
    rw [hu]
    have h255 : toUInt32 (255 : Int) = 255 := by rfl
    rw [h255]
    have he : (255 : Nat) = 2 ^ 8 - 1 := by norm_num
    rw [he, Nat.and_pow_two_sub_one_eq_mod,
      toInt32_natCast _ (by omega)]
  rw [e24, e16, e8, e0]
  rfl

/-! ## `subnetMaskToCIDR` and `calculate` on valid inputs -/

lemma subnetMaskToCIDR_ok {s : String} (h : isValidIPv4 s = true) :
    subnetMaskToCIDR s = .ok ((maskBits s : Nat) : Int) := by
  obtain ⟨a, b, c, d, ho, ha, hb, hc, hd⟩ := valid_octets h
  have pa : popBits a = bitCount8 a := popBits_eq_bitCount8 ⟨a, ha⟩
  have pb : popBits b = bitCount8 b := popBits_eq_bitCount8 ⟨b, hb⟩
  have pc : popBits c = bitCount8 c := popBits_eq_bitCount8 ⟨c, hc⟩
  have pd : popBits d = bitCount8 d := popBits_eq_bitCount8 ⟨d, hd⟩
  have hm : maskBits s = bitCount8 a + (bitCount8 b + (bitCount8 c + (bitCount8 d + 0))) := by
    unfold maskBits
    rw [ho]
    simp
  have ho' : (splitDot s.data).map parseDecDigits = [a, b, c, d] := ho
  unfold subnetMaskToCIDR
  rw [h, ho', hm]
  show Except.ok ((((0 + (popBits a : Int)) + (popBits b : Int)) + (popBits c : Int))
      + (popBits d : Int)) = _
  rw [pa, pb, pc, pd]
  push_cast
  ring_nf

/-- The classful origin guess of `SubnetCalculator.calculate`:
8, 16 or 24 by the leading octet of the network address. -/
def classfulOrigin (firstOctet : Int) : Int :=
  if firstOctet ≥ 192 then 24 else if firstOctet ≥ 128 then 16 else 8

/-- The `SubnetInfo` that `calculate` produces on valid operands. -/
def calcInfo (ipAddress subnetMask : String) : SubnetInfo :=
  let networkAddress := calculateNetworkAddress ipAddress subnetMask
  let broadcastAddress := calculateBroadcastAddress networkAddress subnetMask
  { networkAddress := networkAddress,
    subnetMask := subnetMask,
    cidrNotation := networkAddress ++ "/" ++ toString ((maskBits subnetMask : Nat) : Int),
    wildcardMask := calculateWildcardMask subnetMask,
    hostRange := calculateHostRange networkAddress broadcastAddress,
    broadcastAddress := broadcastAddress,
    numberOfHosts := calculateNumberOfHosts ((maskBits subnetMask : Nat) : Int),
    numberOfSubnets :=
      (2 : ℚ) ^ (((maskBits subnetMask : Nat) : Int)
        - classfulOrigin ((octetsOfStr networkAddress).getD 0 0)) }

lemma calculate_ok {ip mask : String} (hip : isValidIPv4 ip = true)
    (hm : isValidIPv4 mask = true) :
    calculate ip mask = .ok (calcInfo ip mask) := by
  unfold calculate
  rw [hip, hm, subnetMaskToCIDR_ok hm]
  rfl

/-! ## Octet-level form of the derived addresses -/

lemma calculateNetworkAddress_eq {ip mask : String} {a b c d e f g h : Nat}
    (hoi : octetsN ip = [a, b, c, d]) (hom : octetsN mask = [e, f, g, h])
    (ha : a < 256) (hb : b < 256) (hc : c < 256) (hd : d < 256)
    (he : e < 256) (hf : f < 256) (hg : g < 256) (hh : h < 256) :
    calculateNetworkAddress ip mask
      = ofOctets [((a &&& e : Nat) : Int), ((b &&& f : Nat) : Int),
          ((c &&& g : Nat) : Int), ((d &&& h : Nat) : Int)] := by
  unfold calculateNetworkAddress
  rw [octetsOfStr_eq ip, octetsOfStr_eq mask, hoi, hom]
  simp only [List.map_cons, List.map_nil, List.zipWith_cons_cons, List.zipWith_nil]
  rw [jsAnd_small a e (by omega) (by omega), jsAnd_small b f (by omega) (by omega),
    jsAnd_small c g (by omega) (by omega), jsAnd_small d h (by omega) (by omega)]

lemma calculateBroadcastAddress_eq {net mask : String} {n0 n1 n2 n3 e f g h : Nat}
    (hon : octetsN net = [n0, n1, n2, n3]) (hom : octetsN mask = [e, f, g, h])
    (hn0 : n0 < 256) (hn1 : n1 < 256) (hn2 : n2 < 256) (hn3 : n3 < 256)
    (he : e < 256) (hf : f < 256) (hg : g < 256) (hh : h < 256) :
    calculateBroadcastAddress net mask
      = ofOctets [((n0 ||| (255 - e) : Nat) : Int), ((n1 ||| (255 - f) : Nat) : Int),
          ((n2 ||| (255 - g) : Nat) : Int), ((n3 ||| (255 - h) : Nat) : Int)] := by
  unfold calculateBroadcastAddress
  rw [octetsOfStr_eq net, octetsOfStr_eq mask, hon, hom]
  simp only [List.map_cons, List.map_nil, List.zipWith_cons_cons, List.zipWith_nil]
  have we : (255 : Int) - (e : Int) = ((255 - e : Nat) : Int) := by omega
  have wf : (255 : Int) - (f : Int) = ((255 - f : Nat) : Int) := by omega
  have wg : (255 : Int) - (g : Int) = ((255 - g : Nat) : Int) := by omega
  have wh : (255 : Int) - (h : Int) = ((255 - h : Nat) : Int) := by omega
  rw [we, wf, wg, wh,
    jsOr_small n0 (255 - e) (by omega) (by omega),
    jsOr_small n1 (255 - f) (by omega) (by omega),
    jsOr_small n2 (255 - g) (by omega) (by omega),
    jsOr_small n3 (255 - h) (by omega) (by omega)]

lemma calculateHostRange_eq {net bc : String} {n0 n1 n2 n3 b0 b1 b2 b3 : Nat}
    (hon : octetsN net = [n0, n1, n2, n3]) (hob : octetsN bc = [b0, b1, b2, b3]) :
    calculateHostRange net bc
      = (ofOctets [(n0 : Int), (n1 : Int), (n2 : Int), (n3 : Int) + 1],
         ofOctets [(b0 : Int), (b1 : Int), (b2 : Int), (b3 : Int) - 1]) := by
  unfold calculateHostRange
  rw [octetsOfStr_eq net, octetsOfStr_eq bc, hon, hob]
  rfl

lemma encodeU32_byteVal {a b c d : Nat} (ha : a < 256) (hb : b < 256)
    (hc : c < 256) (hd : d < 256) :
    encodeU32 (byteVal a b c d)
      = ofOctets [(a : Int), (b : Int), (c : Int), (d : Int)] := by
  have e1 : byteVal a b c d / 2 ^ 24 % 256 = a := by unfold byteVal; omega
  have e2 : byteVal a b c d / 2 ^ 16 % 256 = b := by unfold byteVal; omega
  have e3 : byteVal a b c d / 2 ^ 8 % 256 = c := by unfold byteVal; omega
  have e4 : byteVal a b c d % 256 = d := by unfold byteVal; omega
  unfold encodeU32
  rw [e1, e2, e3, e4]

/-! ## `ceilLog2` is the ceiling of the base-2 logarithm -/

lemma ceilLog2Aux_spec (n : Nat) : ∀ (fuel k : Nat), 1 ≤ n →
    (∀ j < k, 2 ^ j < n) → n ≤ 2 ^ (k + fuel) →
    n ≤ 2 ^ ceilLog2Aux n k fuel ∧ ∀ j < ceilLog2Aux n k fuel, 2 ^ j < n := by
  intro fuel
  induction fuel with
  | zero =>
    intro k _ hbase hfits
    exact ⟨by simpa using hfits, hbase⟩
  | succ fuel ih =>
    intro k hn hbase hfits
    show n ≤ 2 ^ (if n ≤ 2 ^ k then k else ceilLog2Aux n (k + 1) fuel) ∧ _
    by_cases hk : n ≤ 2 ^ k
    · rw [if_pos hk]
      refine ⟨hk, ?_⟩
      show ∀ j < (if n ≤ 2 ^ k then k else ceilLog2Aux n (k + 1) fuel), 2 ^ j < n
      rw [if_pos hk]
      exact hbase
    · rw [if_neg hk]
      have step := ih (k + 1) hn
        (fun j hj => by
          rcases Nat.lt_succ_iff_lt_or_eq.mp hj with hlt | rfl
          · exact hbase j hlt
          · omega)
        (by rw [show k + 1 + fuel = k + (fuel + 1) from by ring]; exact hfits)
      refine ⟨step.1, ?_⟩
      show ∀ j < (if n ≤ 2 ^ k then k else ceilLog2Aux n (k + 1) fuel), 2 ^ j < n
      rw [if_neg hk]
      exact step.2

/-- `ceilLog2 n` is exactly ⌈log₂ n⌉: the least exponent whose power of
two reaches `n` (for `n` in the 64-bit range the fuel never runs out). -/
lemma ceilLog2_spec (n : Nat) (h1 : 1 ≤ n) (h2 : n ≤ 2 ^ 64) :
    n ≤ 2 ^ ceilLog2 n ∧ ∀ j < ceilLog2 n, 2 ^ j < n :=
  ceilLog2Aux_spec n 64 0 h1 (by omega) (by simpa using h2)

/-- Agreement with Mathlib's ceiling logarithm. -/
lemma ceilLog2_eq_clog (n : Nat) (h1 : 1 ≤ n) (h2 : n ≤ 2 ^ 64) :
    ceilLog2 n = Nat.clog 2 n := by
  obtain ⟨hle, hlt⟩ := ceilLog2_spec n h1 h2
  apply le_antisymm
  · by_contra hcon
    push_neg at hcon
    have hp := hlt _ hcon
    have hb2 : (1 : Nat) < 2 := by norm_num
    have hc := Nat.le_pow_clog hb2 n
    omega
  · exact (Nat.le_pow_iff_clog_le (by norm_num)).mp hle

/-! ## The partition loop -/

lemma mapM_ok {α β : Type} (l : List α) (f : α → Except String β) (g : α → β)
    (h : ∀ x ∈ l, f x = .ok (g x)) : l.mapM f = .ok (l.map g) := by
  induction l with
  | nil => rfl
  | cons a as ih =>
    rw [List.mapM_cons, h a (by simp), ih (fun x hx => h x (List.mem_cons_of_mem a hx))]
    rfl

/-- One iteration of the partition loop, on a valid base address. -/
lemma subnetMember_ok {base : String} (hb : isValidIPv4 base = true)
    (sizeN : Nat) (hs : 1 ≤ sizeN) (i : Nat) :
    subnetMember base ((sizeN : Nat) : Int) i = .ok
      { subnetId := (i : Int) + 1,
        subnetAddress := encodeU32 ((ipValue base + i * sizeN) % 2 ^ 32),
        hostAddressRange :=
          encodeU32 (((ipValue base + i * sizeN) % 2 ^ 32 + 1) % 2 ^ 32) ++ " - " ++
          encodeU32 ((((ipValue base + i * sizeN) % 2 ^ 32 + (sizeN - 1)) % 2 ^ 32
            + (2 ^ 32 - 1)) % 2 ^ 32),
        broadcastAddress :=
          encodeU32 (((ipValue base + i * sizeN) % 2 ^ 32 + (sizeN - 1)) % 2 ^ 32) } := by
  unfold subnetMember
  rw [addToIP_ok hb]
  have c1 : ((((ipValue base) : Int) + (i : Int) * ((sizeN : Nat) : Int)) % 2 ^ 32).toNat
      = (ipValue base + i * sizeN) % 2 ^ 32 := by
    push_cast
    omega
  rw [c1]
  dsimp only
  have hnet : (ipValue base + i * sizeN) % 2 ^ 32 < 2 ^ 32 := by omega
  rw [addToIP_ok (isValidIPv4_encodeU32 _)]
  rw [ipValue_encodeU32 _ hnet]
  have c2 : ((((ipValue base + i * sizeN) % 2 ^ 32 : Nat) : Int)
        + (((sizeN : Nat) : Int) - 1)) % 2 ^ 32
      = ((((ipValue base + i * sizeN) % 2 ^ 32 + (sizeN - 1)) % 2 ^ 32 : Nat) : Int) := by
    push_cast
    omega
  rw [c2, Int.toNat_natCast]
  dsimp only
  have hbc : ((ipValue base + i * sizeN) % 2 ^ 32 + (sizeN - 1)) % 2 ^ 32 < 2 ^ 32 := by
    omega
  rw [addToIP_ok (isValidIPv4_encodeU32 _), ipValue_encodeU32 _ hnet]
  have c3 : ((((ipValue base + i * sizeN) % 2 ^ 32 : Nat) : Int) + 1) % 2 ^ 32
      = ((((ipValue base + i * sizeN) % 2 ^ 32 + 1) % 2 ^ 32 : Nat) : Int) := by
    push_cast
    omega
  rw [c3, Int.toNat_natCast]
  rw [addToIP_ok (isValidIPv4_encodeU32 _), ipValue_encodeU32 _ hbc]
  dsimp only
  have c4 : ((((ipValue base + i * sizeN) % 2 ^ 32 + (sizeN - 1)) % 2 ^ 32 : Nat) : Int)
        + (-1) = (((ipValue base + i * sizeN) % 2 ^ 32 + (sizeN - 1)) % 2 ^ 32 : Nat) - 1 := by
    push_cast
    ring
  have c5 : (((((ipValue base + i * sizeN) % 2 ^ 32 + (sizeN - 1)) % 2 ^ 32 : Nat) : Int) - 1)
        % 2 ^ 32
      = (((((ipValue base + i * sizeN) % 2 ^ 32 + (sizeN - 1)) % 2 ^ 32
        + (2 ^ 32 - 1)) % 2 ^ 32 : Nat) : Int) := by
    push_cast
    omega
  rw [c4, c5, Int.toNat_natCast]

/-- `calculateSubnets` on valid operands with an admissible subnet count:
the partition members are exactly the predicted list. -/
lemma calculateSubnets_ok {base mask : String} (hb : isValidIPv4 base = true)
    (hm : isValidIPv4 mask = true) (n : Int) (hn : 1 ≤ n)
    (hcap : maskBits mask + ceilLog2 n.toNat ≤ 30) :
    calculateSubnets base mask n = .ok
      { info := calcInfo base mask,
        subnetDetails := specMembers (ipValue base)
          (2 ^ (32 - (maskBits mask + ceilLog2 n.toNat))) (2 ^ ceilLog2 n.toNat) } := by
  unfold calculateSubnets
  rw [calculate_ok hb hm, subnetMaskToCIDR_ok hm]
  dsimp only
  rw [if_pos hn]
  rw [if_neg (show ¬(((maskBits mask : Nat) : Int) + ((ceilLog2 n.toNat : Nat) : Int) > 30)
    by omega)]
  obtain ⟨msk, hmsk⟩ : ∃ msk,
      cidrToSubnetMask (((maskBits mask : Nat) : Int) + ((ceilLog2 n.toNat : Nat) : Int))
        = .ok msk := by
    unfold cidrToSubnetMask
    rw [if_neg (by simp only [Bool.or_eq_true, decide_eq_true_eq]; omega)]
    exact ⟨_, rfl⟩
  rw [hmsk]
  dsimp only
  have hsz : ((32 : Int) - (((maskBits mask : Nat) : Int) + ((ceilLog2 n.toNat : Nat) : Int))).toNat
      = 32 - (maskBits mask + ceilLog2 n.toNat) := by omega
  rw [hsz]
  have hpow : ((2 : Int) ^ (32 - (maskBits mask + ceilLog2 n.toNat)))
      = ((2 ^ (32 - (maskBits mask + ceilLog2 n.toNat)) : Nat) : Int) := by
    push_cast
    ring
  rw [hpow]
  have htn : (((ceilLog2 n.toNat : Nat) : Int)).toNat = ceilLog2 n.toNat := by omega
  rw [htn]
  have hone : 1 ≤ 2 ^ (32 - (maskBits mask + ceilLog2 n.toNat)) := Nat.one_le_two_pow
  rw [mapM_ok (List.range (2 ^ ceilLog2 n.toNat)) _ _
    (fun i _ => subnetMember_ok hb (2 ^ (32 - (maskBits mask + ceilLog2 n.toNat))) hone i)]
  rfl

/-! ## The claims -/

/-- C2: for prefixes 1–32 `cidrToSubnetMask` produces the dotted mask
whose 32-bit value has exactly the top `p` bits set
(`2^32 - 2^(32-p)`), and fails with the range error outside [0, 32];
but at prefix 0 the claimed all-zero mask `0.0.0.0` (the encoding of
value 0) is NOT produced: the JavaScript shift count `32 - 0` is taken
mod 32, the shift is a no-op, and the function returns
`255.255.255.255`. -/
theorem c2_cidrToSubnetMask_shift_bug :
    ((List.range 32).all fun p =>
      (cidrToSubnetMask ((p : Int) + 1)).toOption
        == some (encodeU32 (2 ^ 32 - 2 ^ (32 - (p + 1))))) = true ∧
    cidrToSubnetMask 0 = .ok "255.255.255.255" ∧
    encodeU32 0 = "0.0.0.0" ∧
    cidrToSubnetMask 33 = .error "Invalid CIDR prefix: 33" ∧
    cidrToSubnetMask (-1) = .error "Invalid CIDR prefix: -1" := by
  refine ⟨by rfl, by rfl, by rfl, by rfl, by rfl⟩

/-- C7: `calculateSubnetMaskFromHostCount` returns
`cidrToSubnetMask (32 - ⌈log₂(hostCount+2)⌉)` — for 1000 hosts the /22
mask `255.255.252.0`, and a capacity error once the prefix would be
negative — but at `hostCount = 2147483647` the computed prefix is 0 and
the returned mask is `255.255.255.255`, not the claimed prefix-0 mask
`0.0.0.0` (the `cidrToSubnetMask` shift slip of C2). -/
theorem c7_maskFromHostCount_prefix0_bug :
    calculateSubnetMaskFromHostCount 2147483647 = .ok "255.255.255.255" ∧
    encodeU32 0 = "0.0.0.0" ∧
    calculateSubnetMaskFromHostCount 1000 = .ok "255.255.252.0" ∧
    calculateSubnetMaskFromHostCount 4294967295
      = .error "요청한 호스트 수가 IPv4에서 지원하는 최대 범위를 초과합니다." := by
  refine ⟨by rfl, by rfl, by rfl, by rfl⟩

/-- C8: converting a prefix to a mask and back is the identity for every
prefix in [1, 32], but NOT at prefix 0: `cidrToSubnetMask 0` yields
`255.255.255.255` (the shift-by-32 no-op of C2), whose popcount is 32,
so the round trip maps 0 to 32. -/
theorem c8_roundtrip_bug :
    ((List.range 32).all fun p =>
      ((cidrToSubnetMask ((p : Int) + 1)).bind subnetMaskToCIDR).toOption
        == some ((p : Int) + 1)) = true ∧
    (cidrToSubnetMask 0).bind subnetMaskToCIDR = .ok 32 := by
  refine ⟨by rfl, by rfl⟩

/-- C9: on a valid address, `addToIP` returns the dotted-decimal
encoding of the 32-bit value plus the delta, reduced modulo 2^32
(`Int.emod`, so negative sums wrap to the high end and overlarge sums
wrap to the low end), for every integer delta, with no error. -/
theorem c9_addToIP_wraps (ip : String) (δ : Int) (h : isValidIPv4 ip = true) :
    addToIP ip δ = .ok (encodeU32 ((((ipValue ip : Nat) : Int) + δ) % 2 ^ 32).toNat) :=
  addToIP_ok h δ

/-- C9 witness: wrap-around at both ends of the address space. -/
theorem c9_addToIP_wraps_witness :
    isValidIPv4 "255.255.255.255" = true ∧
    addToIP "255.255.255.255" 1 = .ok "0.0.0.0" ∧
    addToIP "0.0.0.1" (-2) = .ok "255.255.255.255" := by
  refine ⟨by rfl, ?_, ?_⟩
  · rw [c9_addToIP_wraps "255.255.255.255" 1 (by rfl)]
    rfl
  · rw [c9_addToIP_wraps "0.0.0.1" (-2) (by rfl)]
    rfl

/-- C10: on every syntactically valid mask string `subnetMaskToCIDR`
returns the total number of 1-bits over all four octets (counted over
bit positions, `maskBits`) with no contiguity check; in particular the
non-contiguous mask `255.0.255.0` yields 16 rather than an error. -/
theorem c10_popcount_no_contiguity_check :
    (∀ s : String, isValidIPv4 s = true →
      subnetMaskToCIDR s = .ok ((maskBits s : Nat) : Int)) ∧
    subnetMaskToCIDR "255.0.255.0" = .ok 16 :=
  ⟨fun _ h => subnetMaskToCIDR_ok h, by rfl⟩

/-- C10 witness: the population count at a contiguous and at a
non-contiguous mask. -/
theorem c10_popcount_no_contiguity_check_witness :
    isValidIPv4 "255.255.240.0" = true ∧
    subnetMaskToCIDR "255.255.240.0" = .ok 20 := by
  refine ⟨by rfl, ?_⟩
  rw [c10_popcount_no_contiguity_check.1 "255.255.240.0" (by rfl)]
  rfl

/-- C3: for valid operands, `desiredSubnets = n ≥ 1` and
`prefix + ⌈log₂ n⌉ ≤ 30`, the partition succeeds and its member list is
exactly `specMembers`: `2 ^ ⌈log₂ n⌉` members, member `i` carrying
identifier `i + 1`, network `base + i·2^(32−newPrefix) (mod 2^32)`,
broadcast `network + blockSize − 1 (mod 2^32)` and host range
`network+1 … broadcast−1` (wrapping, re-encoded in dotted decimal). -/
theorem c3_partition_members (base mask : String) (n : Int)
    (hb : isValidIPv4 base = true) (hm : isValidIPv4 mask = true) (hn : 1 ≤ n)
    (hcap : maskBits mask + ceilLog2 n.toNat ≤ 30) :
    (calculateSubnets base mask n).toOption.map (fun r => r.subnetDetails)
      = some (specMembers (ipValue base)
          (2 ^ (32 - (maskBits mask + ceilLog2 n.toNat))) (2 ^ ceilLog2 n.toNat)) := by
  rw [calculateSubnets_ok hb hm n hn hcap]
  rfl

/-- C3 witness: asking for 5 subnets of a /24 yields exactly
2^⌈log₂ 5⌉ = 8 members. -/
theorem c3_partition_members_witness :
    isValidIPv4 "192.168.1.0" = true ∧ isValidIPv4 "255.255.255.0" = true ∧
    1 ≤ (5 : Int) ∧ maskBits "255.255.255.0" + ceilLog2 (5 : Int).toNat ≤ 30 ∧
    (calculateSubnets "192.168.1.0" "255.255.255.0" 5).toOption.map
        (fun r => r.subnetDetails)
      = some (specMembers (ipValue "192.168.1.0")
          (2 ^ (32 - (maskBits "255.255.255.0" + ceilLog2 (5 : Int).toNat)))
          (2 ^ ceilLog2 (5 : Int).toNat)) ∧
    (specMembers (ipValue "192.168.1.0")
        (2 ^ (32 - (maskBits "255.255.255.0" + ceilLog2 (5 : Int).toNat)))
        (2 ^ ceilLog2 (5 : Int).toNat)).length = 8 :=
  ⟨by rfl, by rfl, by norm_num, by decide,
    c3_partition_members "192.168.1.0" "255.255.255.0" 5 (by rfl) (by rfl)
      (by norm_num) (by decide), by decide⟩

/-- C6 (amended): `calculateSubnets` never checks `desiredSubnets ≥ 1`.
For valid operands: at `n = 0` it fails with the range error
`Invalid CIDR prefix: -Infinity` (via `Math.log2 0 = -∞` reaching the
mask conversion); for `n < 0` it SUCCEEDS, returning an empty member
list (NaN propagation makes every guard false and the loop run zero
times); for `n ≥ 1` it fails with the capacity error exactly when
`prefix + ⌈log₂ n⌉ > 30` and succeeds otherwise. -/
theorem c6_subnets_validation (base mask : String) (n : Int)
    (hb : isValidIPv4 base = true) (hm : isValidIPv4 mask = true) :
    (n = 0 → calculateSubnets base mask 0 = .error "Invalid CIDR prefix: -Infinity") ∧
    (n < 0 → (calculateSubnets base mask n).toOption.map (fun r => r.subnetDetails)
      = some []) ∧
    (1 ≤ n → 30 < maskBits mask + ceilLog2 n.toNat →
      calculateSubnets base mask n = .error
        ("요청한 서브넷 수 (" ++ toString n ++ ")가 너무 많습니다. 최대 CIDR은 /30입니다.")) ∧
    (1 ≤ n → maskBits mask + ceilLog2 n.toNat ≤ 30 →
      (calculateSubnets base mask n).toOption.isSome = true) := by
  refine ⟨?_, ?_, ?_, ?_⟩
  · intro _
    unfold calculateSubnets
    rw [calculate_ok hb hm, subnetMaskToCIDR_ok hm]
    dsimp only
    rw [if_neg (by omega), if_pos rfl]
  · intro hneg
    unfold calculateSubnets
    rw [calculate_ok hb hm, subnetMaskToCIDR_ok hm]
    dsimp only
    rw [if_neg (by omega), if_neg (by omega)]
    rfl
  · intro hn hcap
    unfold calculateSubnets
    rw [calculate_ok hb hm, subnetMaskToCIDR_ok hm]
    dsimp only
    rw [if_pos hn,
      if_pos (show ((maskBits mask : Nat) : Int) + ((ceilLog2 n.toNat : Nat) : Int) > 30
        by omega)]
  · intro hn hcap
    rw [calculateSubnets_ok hb hm n hn hcap]
    rfl

/-- C6 counterexample: the claim says every `n < 1` fails with a range
error, but at `n = -1` the call SUCCEEDS (with an empty member list). -/
theorem c6_subnets_validation_counterexample :
    (calculateSubnets "10.0.0.0" "255.255.255.0" (-1)).toOption.map
      (fun r => r.subnetDetails) = some [] := by rfl

/-- C6 witness: the amended statement applied at `n = -1` on a valid
/24 block. -/
theorem c6_subnets_validation_witness :
    isValidIPv4 "10.0.0.0" = true ∧ isValidIPv4 "255.255.255.0" = true ∧
    ((-1 : Int) = 0 → calculateSubnets "10.0.0.0" "255.255.255.0" 0
      = .error "Invalid CIDR prefix: -Infinity") ∧
    ((-1 : Int) < 0 →
      (calculateSubnets "10.0.0.0" "255.255.255.0" (-1)).toOption.map
        (fun r => r.subnetDetails) = some []) ∧
    (1 ≤ (-1 : Int) → 30 < maskBits "255.255.255.0" + ceilLog2 (-1 : Int).toNat →
      calculateSubnets "10.0.0.0" "255.255.255.0" (-1) = .error
        ("요청한 서브넷 수 (" ++ toString (-1 : Int) ++ ")가 너무 많습니다. 최대 CIDR은 /30입니다.")) ∧
    (1 ≤ (-1 : Int) → maskBits "255.255.255.0" + ceilLog2 (-1 : Int).toNat ≤ 30 →
      (calculateSubnets "10.0.0.0" "255.255.255.0" (-1)).toOption.isSome = true) :=
  ⟨by rfl, by rfl,
    (c6_subnets_validation "10.0.0.0" "255.255.255.0" (-1) (by rfl) (by rfl)).1,
    (c6_subnets_validation "10.0.0.0" "255.255.255.0" (-1) (by rfl) (by rfl)).2.1,
    (c6_subnets_validation "10.0.0.0" "255.255.255.0" (-1) (by rfl) (by rfl)).2.2.1,
    (c6_subnets_validation "10.0.0.0" "255.255.255.0" (-1) (by rfl) (by rfl)).2.2.2⟩

/-- C4 (amended): the engine increments / decrements only the LAST octet
of the network and broadcast strings, with no carry into higher octets.
Whenever the network's last octet is below 255 and the broadcast's last
octet is above 0 — which holds for every mask of prefix ≤ 31 — this
agrees with the claimed 32-bit arithmetic
`first = network + 1`, `last = broadcast − 1` (mod 2^32, re-encoded);
outside that range the code emits an out-of-range octet instead of
wrapping (see the counterexample). -/
theorem c4_hostRange_lastOctet (ip mask : String) (hip : isValidIPv4 ip = true)
    (hm : isValidIPv4 mask = true)
    (h1 : ipValue (calculateNetworkAddress ip mask) % 256 < 255)
    (h2 : 0 < ipValue (calculateBroadcastAddress (calculateNetworkAddress ip mask) mask)
      % 256) :
    (calculate ip mask).toOption.map (fun info => info.hostRange)
      = some (encodeU32 ((ipValue (calculateNetworkAddress ip mask) + 1) % 2 ^ 32),
          encodeU32 ((ipValue (calculateBroadcastAddress (calculateNetworkAddress ip mask)
            mask) + (2 ^ 32 - 1)) % 2 ^ 32)) := by
  obtain ⟨a, b, c, d, hoi, ha, hb, hc, hd⟩ := valid_octets hip
  obtain ⟨e, f, g, h, hom, he, hf, hg, hh⟩ := valid_octets hm
  have hor256 : ∀ x y : Nat, x < 256 → y < 256 → x ||| y < 256 := by
    intro x y hx hy
    have h8 : (256 : Nat) = 2 ^ 8 := by norm_num
    rw [h8] at hx hy ⊢
    exact Nat.or_lt_two_pow hx hy
  have hnet := calculateNetworkAddress_eq hoi hom ha hb hc hd he hf hg hh
  have hn0 : a &&& e < 256 := Nat.lt_of_le_of_lt Nat.and_le_left ha
  have hn1 : b &&& f < 256 := Nat.lt_of_le_of_lt Nat.and_le_left hb
  have hn2 : c &&& g < 256 := Nat.lt_of_le_of_lt Nat.and_le_left hc
  have hn3 : d &&& h < 256 := Nat.lt_of_le_of_lt Nat.and_le_left hd
  have honet : octetsN (calculateNetworkAddress ip mask)
      = [a &&& e, b &&& f, c &&& g, d &&& h] := by
    rw [hnet]
    exact octetsN_ofOctets4 hn0 hn1 hn2 hn3
  have hvnet : ipValue (calculateNetworkAddress ip mask)
      = byteVal (a &&& e) (b &&& f) (c &&& g) (d &&& h) := by
    unfold ipValue
    rw [honet]
  have hbc := calculateBroadcastAddress_eq honet hom hn0 hn1 hn2 hn3 he hf hg hh
  have hb0 : (a &&& e) ||| (255 - e) < 256 := hor256 _ _ hn0 (by omega)
  have hb1 : (b &&& f) ||| (255 - f) < 256 := hor256 _ _ hn1 (by omega)
  have hb2 : (c &&& g) ||| (255 - g) < 256 := hor256 _ _ hn2 (by omega)
  have hb3 : (d &&& h) ||| (255 - h) < 256 := hor256 _ _ hn3 (by omega)
  have hobc : octetsN (calculateBroadcastAddress (calculateNetworkAddress ip mask) mask)
      = [(a &&& e) ||| (255 - e), (b &&& f) ||| (255 - f),
         (c &&& g) ||| (255 - g), (d &&& h) ||| (255 - h)] := by
    rw [hbc]
    exact octetsN_ofOctets4 hb0 hb1 hb2 hb3
  have hvbc : ipValue (calculateBroadcastAddress (calculateNetworkAddress ip mask) mask)
      = byteVal ((a &&& e) ||| (255 - e)) ((b &&& f) ||| (255 - f))
          ((c &&& g) ||| (255 - g)) ((d &&& h) ||| (255 - h)) := by
    unfold ipValue
    rw [hobc]
  rw [hvnet] at h1
  rw [hvbc] at h2
  have hlastn : d &&& h < 255 := by
    have : byteVal (a &&& e) (b &&& f) (c &&& g) (d &&& h) % 256 = d &&& h := by
      unfold byteVal
      omega
    omega
  have hlastb : 0 < (d &&& h) ||| (255 - h) := by
    have : byteVal ((a &&& e) ||| (255 - e)) ((b &&& f) ||| (255 - f))
        ((c &&& g) ||| (255 - g)) ((d &&& h) ||| (255 - h)) % 256
        = (d &&& h) ||| (255 - h) := by
      unfold byteVal
      omega
    omega
  rw [calculate_ok hip hm]
  show some ((calcInfo ip mask).hostRange) = _
  have hproj : (calcInfo ip mask).hostRange
      = calculateHostRange (calculateNetworkAddress ip mask)
          (calculateBroadcastAddress (calculateNetworkAddress ip mask) mask) := rfl
  rw [hproj, calculateHostRange_eq honet hobc, hvnet, hvbc]
  have efirst : (byteVal (a &&& e) (b &&& f) (c &&& g) (d &&& h) + 1) % 2 ^ 32
      = byteVal (a &&& e) (b &&& f) (c &&& g) ((d &&& h) + 1) := by
    unfold byteVal
    omega
  have elast : (byteVal ((a &&& e) ||| (255 - e)) ((b &&& f) ||| (255 - f))
        ((c &&& g) ||| (255 - g)) ((d &&& h) ||| (255 - h)) + (2 ^ 32 - 1)) % 2 ^ 32
      = byteVal ((a &&& e) ||| (255 - e)) ((b &&& f) ||| (255 - f))
          ((c &&& g) ||| (255 - g)) (((d &&& h) ||| (255 - h)) - 1) := by
    unfold byteVal
    omega
  rw [efirst, elast, encodeU32_byteVal hn0 hn1 hn2 (by omega),
    encodeU32_byteVal hb0 hb1 hb2 (by omega)]
  have c1 : (((d &&& h) + 1 : Nat) : Int) = ((d &&& h : Nat) : Int) + 1 := by push_cast; ring
  have c2 : ((((d &&& h) ||| (255 - h)) - 1 : Nat) : Int)
      = (((d &&& h) ||| (255 - h) : Nat) : Int) - 1 := by omega
  rw [c1, c2]

/-- C4 counterexample: at the /32 mask on `0.0.0.0` the code produces
the literal octet `-1` (`hostRange.last = "0.0.0.-1"`), not the claimed
32-bit wrap `255.255.255.255`; so hostRange is computed on the last
octet only, without carry. -/
theorem c4_hostRange_counterexample :
    (calculate "0.0.0.0" "255.255.255.255").toOption.map (fun info => info.hostRange)
      = some ("0.0.0.1", "0.0.0.-1") ∧
    encodeU32 ((ipValue "0.0.0.0" + (2 ^ 32 - 1)) % 2 ^ 32) = "255.255.255.255" := by
  refine ⟨by rfl, by rfl⟩

/-- C4 witness: on `192.168.1.10/24` the host range is the 32-bit
`network + 1 … broadcast − 1`. -/
theorem c4_hostRange_lastOctet_witness :
    isValidIPv4 "192.168.1.10" = true ∧ isValidIPv4 "255.255.255.0" = true ∧
    ipValue (calculateNetworkAddress "192.168.1.10" "255.255.255.0") % 256 < 255 ∧
    0 < ipValue (calculateBroadcastAddress
      (calculateNetworkAddress "192.168.1.10" "255.255.255.0") "255.255.255.0") % 256 ∧
    (calculate "192.168.1.10" "255.255.255.0").toOption.map (fun info => info.hostRange)
      = some (encodeU32 ((ipValue (calculateNetworkAddress "192.168.1.10" "255.255.255.0")
            + 1) % 2 ^ 32),
          encodeU32 ((ipValue (calculateBroadcastAddress
            (calculateNetworkAddress "192.168.1.10" "255.255.255.0") "255.255.255.0")
            + (2 ^ 32 - 1)) % 2 ^ 32)) :=
  ⟨by rfl, by rfl, by decide, by decide,
    c4_hostRange_lastOctet "192.168.1.10" "255.255.255.0" (by rfl) (by rfl)
      (by decide) (by decide)⟩

/-- C5 (amended): `parseIPv4` on a valid dotted string returns a record
whose string is the input, whose octets are the decimal values of the
four groups, whose `decimalValue` is the SIGNED 32-bit reinterpretation
of `o0·2^24 + o1·2^16 + o2·2^8 + o3` — congruent to it modulo 2^32 but
lying in [−2^31, 2^31), hence negative whenever `o0 ≥ 128`, not the
non-negative value the claim states — and whose binary strings are
8 characters each and decode back to the octets. -/
theorem c5_parseIPv4_signed (s : String) (h : isValidIPv4 s = true) :
    ∃ r, parseIPv4 s = .ok r ∧ r.address = s ∧
      r.octets = List.map (fun n : Nat => (n : Int)) (octetsN s) ∧
      r.decimalValue % 2 ^ 32 = ((ipValue s : Nat) : Int) ∧
      -2 ^ 31 ≤ r.decimalValue ∧ r.decimalValue < 2 ^ 31 ∧
      List.map (fun bs => (bs.data.length, binDecode bs.data)) r.binaryOctets
        = List.map (fun o => (8, o)) (octetsN s) := by
  obtain ⟨a, b, c, d, ho, ha, hb, hc, hd⟩ := valid_octets h
  refine ⟨_, parseIPv4_ok h ho, rfl, ?_, ?_, ?_, ?_, ?_⟩
  · rw [ho]
    rfl
  · rw [decimalValue_eq ha hb hc hd]
    have hv : ipValue s = byteVal a b c d := by unfold ipValue; rw [ho]
    rw [hv]
    exact toInt32_natCast_emod _ (byteVal_lt ha hb hc hd)
  · rw [decimalValue_eq ha hb hc hd]
    exact (toInt32_natCast_bounds _).1
  · rw [decimalValue_eq ha hb hc hd]
    exact (toInt32_natCast_bounds _).2
  · rw [ho]
    show [((padStart8 (renderBin a)).length, binDecode (padStart8 (renderBin a))),
          ((padStart8 (renderBin b)).length, binDecode (padStart8 (renderBin b))),
          ((padStart8 (renderBin c)).length, binDecode (padStart8 (renderBin c))),
          ((padStart8 (renderBin d)).length, binDecode (padStart8 (renderBin d)))]
        = [(8, a), (8, b), (8, c), (8, d)]
    rw [(bin_facts ⟨a, ha⟩).1, (bin_facts ⟨a, ha⟩).2,
      (bin_facts ⟨b, hb⟩).1, (bin_facts ⟨b, hb⟩).2,
      (bin_facts ⟨c, hc⟩).1, (bin_facts ⟨c, hc⟩).2,
      (bin_facts ⟨d, hd⟩).1, (bin_facts ⟨d, hd⟩).2]

/-- C5 counterexample: the claim says `decimalValue` is the non-negative
32-bit integer, but `parseIPv4 "128.0.0.0"` stores −2147483648 (the
JavaScript `<<`/`|` chain works on signed 32-bit values), not 2^31. -/
theorem c5_parseIPv4_counterexample :
    (parseIPv4 "128.0.0.0").toOption.map (fun r => r.decimalValue)
      = some (-2147483648) ∧ (ipValue "128.0.0.0" : Nat) = 2147483648 := by
  refine ⟨by rfl, by rfl⟩

/-- C5 witness: the amended statement at `128.0.0.42`. -/
theorem c5_parseIPv4_signed_witness :
    isValidIPv4 "128.0.0.42" = true ∧
    (∃ r, parseIPv4 "128.0.0.42" = .ok r ∧ r.address = "128.0.0.42" ∧
      r.octets = List.map (fun n : Nat => (n : Int)) (octetsN "128.0.0.42") ∧
      r.decimalValue % 2 ^ 32 = ((ipValue "128.0.0.42" : Nat) : Int) ∧
      -2 ^ 31 ≤ r.decimalValue ∧ r.decimalValue < 2 ^ 31 ∧
      List.map (fun bs => (bs.data.length, binDecode bs.data)) r.binaryOctets
        = List.map (fun o => (8, o)) (octetsN "128.0.0.42")) :=
  ⟨by rfl, c5_parseIPv4_signed "128.0.0.42" (by rfl)⟩

/-- C1: for valid operands `calculate` succeeds with
`networkAddress = address AND mask` and
`broadcastAddress = networkAddress OR (NOT mask)` as 32-bit values —
equivalently, octet by octet, OR with `255 − maskOctet`. -/
theorem c1_network_broadcast (ip mask : String) (hip : isValidIPv4 ip = true)
    (hm : isValidIPv4 mask = true) :
    ∃ info, calculate ip mask = .ok info ∧
      ipValue info.networkAddress = ipValue ip &&& ipValue mask ∧
      ipValue info.broadcastAddress
        = ipValue info.networkAddress ||| ((2 ^ 32 - 1) ^^^ ipValue mask) ∧
      octetsN info.broadcastAddress
        = List.zipWith (fun n m => n ||| (255 - m))
            (octetsN info.networkAddress) (octetsN mask) := by
  obtain ⟨a, b, c, d, hoi, ha, hb, hc, hd⟩ := valid_octets hip
  obtain ⟨e, f, g, h, hom, he, hf, hg, hh⟩ := valid_octets hm
  have hvip : ipValue ip = byteVal a b c d := by unfold ipValue; rw [hoi]
  have hvm : ipValue mask = byteVal e f g h := by unfold ipValue; rw [hom]
  have hnet := calculateNetworkAddress_eq hoi hom ha hb hc hd he hf hg hh
  have hn0 : a &&& e < 256 := Nat.lt_of_le_of_lt Nat.and_le_left ha
  have hn1 : b &&& f < 256 := Nat.lt_of_le_of_lt Nat.and_le_left hb
  have hn2 : c &&& g < 256 := Nat.lt_of_le_of_lt Nat.and_le_left hc
  have hn3 : d &&& h < 256 := Nat.lt_of_le_of_lt Nat.and_le_left hd
  have honet : octetsN (calculateNetworkAddress ip mask)
      = [a &&& e, b &&& f, c &&& g, d &&& h] := by
    rw [hnet]
    exact octetsN_ofOctets4 hn0 hn1 hn2 hn3
  have hvnet : ipValue (calculateNetworkAddress ip mask)
      = byteVal (a &&& e) (b &&& f) (c &&& g) (d &&& h) := by
    unfold ipValue
    rw [honet]
  have hor256 : ∀ x y : Nat, x < 256 → y < 256 → x ||| y < 256 := by
    intro x y hx hy
    have h8 : (256 : Nat) = 2 ^ 8 := by norm_num
    rw [h8] at hx hy ⊢
    exact Nat.or_lt_two_pow hx hy
  have hbc := calculateBroadcastAddress_eq honet hom hn0 hn1 hn2 hn3 he hf hg hh
  have hb0 : (a &&& e) ||| (255 - e) < 256 := hor256 _ _ hn0 (by omega)
  have hb1 : (b &&& f) ||| (255 - f) < 256 := hor256 _ _ hn1 (by omega)
  have hb2 : (c &&& g) ||| (255 - g) < 256 := hor256 _ _ hn2 (by omega)
  have hb3 : (d &&& h) ||| (255 - h) < 256 := hor256 _ _ hn3 (by omega)
  have hobc : octetsN (calculateBroadcastAddress (calculateNetworkAddress ip mask) mask)
      = [(a &&& e) ||| (255 - e), (b &&& f) ||| (255 - f),
         (c &&& g) ||| (255 - g), (d &&& h) ||| (255 - h)] := by
    rw [hbc]
    exact octetsN_ofOctets4 hb0 hb1 hb2 hb3
  have hvbc : ipValue (calculateBroadcastAddress (calculateNetworkAddress ip mask) mask)
      = byteVal ((a &&& e) ||| (255 - e)) ((b &&& f) ||| (255 - f))
          ((c &&& g) ||| (255 - g)) ((d &&& h) ||| (255 - h)) := by
    unfold ipValue
    rw [hobc]
  refine ⟨calcInfo ip mask, calculate_ok hip hm, ?_, ?_, ?_⟩
  · show ipValue (calculateNetworkAddress ip mask) = _
    rw [hvnet, hvip, hvm, byteVal_and hb hc hd hf hg hh]
  · show ipValue (calculateBroadcastAddress (calculateNetworkAddress ip mask) mask)
        = ipValue (calculateNetworkAddress ip mask) ||| ((2 ^ 32 - 1) ^^^ ipValue mask)
    rw [hvbc, hvnet, hvm]
    have hones : (2 ^ 32 - 1 : Nat) = byteVal 255 255 255 255 := by
      unfold byteVal
      norm_num
    have hxf : 255 ^^^ f < 256 := by rw [← sub_eq_xor_255 ⟨f, hf⟩]; omega
    have hxg : 255 ^^^ g < 256 := by rw [← sub_eq_xor_255 ⟨g, hg⟩]; omega
    have hxh : 255 ^^^ h < 256 := by rw [← sub_eq_xor_255 ⟨h, hh⟩]; omega
    rw [hones, byteVal_xor (by omega) (by omega) (by omega) hf hg hh,
      byteVal_or hn1 hn2 hn3 hxf hxg hxh]
    rw [← sub_eq_xor_255 ⟨e, he⟩, ← sub_eq_xor_255 ⟨f, hf⟩,
      ← sub_eq_xor_255 ⟨g, hg⟩, ← sub_eq_xor_255 ⟨h, hh⟩]
  · show octetsN (calculateBroadcastAddress (calculateNetworkAddress ip mask) mask)
        = List.zipWith _ (octetsN (calculateNetworkAddress ip mask)) (octetsN mask)
    rw [hobc, honet, hom]
    rfl

/-- C1 witness: the invariant at `192.168.1.10 / 255.255.255.0`. -/
theorem c1_network_broadcast_witness :
    isValidIPv4 "192.168.1.10" = true ∧ isValidIPv4 "255.255.255.0" = true ∧
    (∃ info, calculate "192.168.1.10" "255.255.255.0" = .ok info ∧
      ipValue info.networkAddress
        = ipValue "192.168.1.10" &&& ipValue "255.255.255.0" ∧
      ipValue info.broadcastAddress
        = ipValue info.networkAddress ||| ((2 ^ 32 - 1) ^^^ ipValue "255.255.255.0") ∧
      octetsN info.broadcastAddress
        = List.zipWith (fun n m => n ||| (255 - m))
            (octetsN info.networkAddress) (octetsN "255.255.255.0")) :=
  ⟨by rfl, by rfl,
    c1_network_broadcast "192.168.1.10" "255.255.255.0" (by rfl) (by rfl)⟩

end Ipv4Calc
